import Mathlib

/-!
Verification of the `reverse` HTTP reverse proxy (Go) against its
natural-language specification.  The Go sources are shallowly embedded:
`time.Duration` and instants become `Int` nanoseconds, Go maps become
association lists, fallible or panicking code returns `Option`/`Except`.
-/

/-- One second, in nanoseconds (`time.Second`). -/
def second : Int := 1000000000

/-! ### Backend state (`internal/loadbalancer/pool/backend.go`) -/

/-- Mutable per-backend record of `pool.Backend`.  Times are absolute
instants in nanoseconds, `backoffTime` is a duration in nanoseconds. -/
structure BackendState where
  name : String
  url : String
  healthUrl : String
  weight : Int
  maxConns : Int
  healthy : Bool
  failureCount : Int
  activeConns : Int
  totalRequests : Int
  lastCheck : Int
  backoffTime : Int
  deriving Repr, DecidableEq

/-- Go `pool.NewBackend`: fresh state (healthy `false`, `failureCount` 0,
`backoffTime` 1 s, `lastCheck` two seconds in the past). -/
def newBackend (name url healthUrl : String) (weight maxConns : Int)
    (now : Int) : BackendState :=
  { name := name, url := url, healthUrl := healthUrl, weight := weight
    maxConns := maxConns, healthy := false, failureCount := 0
    activeConns := 0, totalRequests := 0
    lastCheck := now - 2 * second, backoffTime := second }

/-- Go `(*Backend).UpdateHealth`: sets `lastCheck := now`; on success resets
backoff to 1 s and marks healthy; on failure increments the failure count,
marks unhealthy, and doubles the backoff whenever it is below 60 s. -/
def updateHealth (b : BackendState) (success : Bool) (now : Int) :
    BackendState :=
  let b := { b with lastCheck := now }
  if success then
    { b with backoffTime := second, healthy := true }
  else
    let b := { b with failureCount := b.failureCount + 1, healthy := false }
    if b.backoffTime < 60 * second then
      { b with backoffTime := b.backoffTime * 2 }
    else
      b

/-- Go `(*Backend).IsBackedOff`: `time.Now().Before(lastCheck + backoffTime)`. -/
def isBackedOff (b : BackendState) (now : Int) : Bool :=
  decide (now < b.lastCheck + b.backoffTime)

/-- State of a fresh backend after `k` consecutive failed probes
(`UpdateHealth false` applied `k` times). -/
def afterFailures (k : Nat) : BackendState :=
  Nat.rec (newBackend "b" "u" "h" 1 100 0)
    (fun _ b => updateHealth b false 0) k

/-! ### Fixed-window rate limiter (`internal/limiter/fixed.go`) and the
rate-limiting middleware (`internal/middleware/limiting.go`) -/

/-- State of `limiter.Fixed`: the admission counter and the instant of the
last one-second tick (nanoseconds). -/
structure FixedLimiter where
  limit : Int
  counter : Int
  lastTick : Int
  deriving Repr, DecidableEq

/-- Go `(*Fixed).Allow`: if `counter >= limit`, deny with
`retryAfter = time.Until(lastTick.Add(time.Second))`; otherwise increment
the counter and admit with zero wait.  Returns
`((admitted, retryAfter), new state)`. -/
def fixedAllow (f : FixedLimiter) (now : Int) : (Bool × Int) × FixedLimiter :=
  if f.counter ≥ f.limit then
    ((false, (f.lastTick + second) - now), f)
  else
    ((true, 0), { f with counter := f.counter + 1 })

/-- Conversion `int(d.Seconds())` for a `time.Duration` of `d` nanoseconds: Go's
float-to-int conversion truncates toward zero, so this is truncating
division by 10^9. -/
def goDurationSecondsInt (d : Int) : Int := d.tdiv second

/-- The rate-limiting middleware's denial path (`middleware.Limiting`):
when the limiter denies, respond 429 with header
`Retry-After: strconv.Itoa(int(retryAfter.Seconds()))`.  Returns
`(some (status, retryAfterHeader), state)` on denial and `(none, state)`
when the request is forwarded. -/
def limitingStep (f : FixedLimiter) (now : Int) :
    Option (Nat × String) × FixedLimiter :=
  let r := fixedAllow f now
  if r.1.1 then
    (none, r.2)
  else
    (some (429, toString (goDurationSecondsInt r.1.2)), r.2)

/-! ### Outbound request URL (`internal/proxy/handler.go` line 49 and the
`ServeHTTP` draft in `src/unnamed/part_017` line 40) -/

/-- URL of the outbound upstream request:
`http.NewRequest(r.Method, backend.Url + r.URL.Path, r.Body)` — the
backend base URL concatenated with the inbound path only. -/
def outboundUrl (backendUrl path query : String) : String :=
  backendUrl ++ path

/-- Modelled from the spec: the outbound URL the specification describes,
"the selected backend's base URL concatenated with the inbound path (and
query)". -/
def specOutboundUrl (backendUrl path query : String) : String :=
  backendUrl ++ path ++ (if query = "" then "" else "?" ++ query)

/-! ### HTTP headers -/

/-- Type `http.Header` / `map[string][]string`, as an association list (keys
unique in well-formed values). -/
abbrev Headers := List (String × List String)

/-- Go map indexing `h[k]` with the zero value `nil` for a missing key. -/
def headerIndex (h : Headers) (k : String) : List String :=
  ((h.find? (fun kv => kv.1 == k)).map (fun kv => kv.2)).getD []

/-! ### Cache entry and store (`internal/cache/cache.go`,
`internal/cache/memory.go`) -/

/-- Go `cache.Entry`: body bytes, stored headers, absolute expiry instant
(nanoseconds). -/
structure CacheEntry where
  body : List Nat
  headers : Headers
  expires : Int
  deriving Repr, DecidableEq

/-- Go `(*Entry).isExpired`: `time.Now().After(e.expires)` — strictly after. -/
def entryIsExpired (e : CacheEntry) (now : Int) : Bool :=
  decide (now > e.expires)

/-- Go `(*memoryCache).Get` (the configured variant, `memory.go` lines
129–151): look up the key; a missing entry is a miss; an expired entry is
deleted and reported as a miss; otherwise copies of body and headers are
returned.  Returns `(result, new item map)`. -/
def memGet (items : List (String × CacheEntry)) (key : String) (now : Int) :
    Option (List Nat × Headers) × List (String × CacheEntry) :=
  match items.find? (fun kv => kv.1 == key) with
  | none => (none, items)
  | some kv =>
    if entryIsExpired kv.2 now then
      (none, items.filter (fun kv2 => kv2.1 ≠ key))
    else
      (some (kv.2.body, kv.2.headers), items)

/-! ### Header canonicalization and hop-by-hop stripping
(`internal/cache/cache.go` `stripHopByHop`, `internal/proxy/handler.go`
`hopHeaders` / `isHopHeader` / `copyHeader`) -/

/-- Valid `textproto` header-field byte (RFC 7230 token characters). -/
def isTokenChar (c : Char) : Bool :=
  c.isAlphanum
    || ['!', '#', '$', '%', '&', '*', '+', '-', '.', '^', '_', '|', '~'].contains c
    || c.val == 39 || c.val == 96

/-- Case adjustment of `textproto.CanonicalMIMEHeaderKey`: uppercase at the
start and after each hyphen, lowercase elsewhere. -/
def canonAux (upper : Bool) : List Char → List Char
  | [] => []
  | c :: rest =>
    let c2 := if upper then c.toUpper else c.toLower
    c2 :: canonAux (c2 == '-') rest

/-- Go `http.CanonicalHeaderKey`: keys containing an invalid byte are returned
unchanged, otherwise the canonical capitalization is produced. -/
def canonicalHeaderKey (s : String) : String :=
  if s.data.all isTokenChar then ⟨canonAux true s.data⟩ else s

/-- The literals of the `switch` in `cache.stripHopByHop` (note `"TE"` and
`"Trailer"`, exactly as written in the source). -/
def storeHopList : List String :=
  ["Connection", "Keep-Alive", "Proxy-Authenticate", "Proxy-Authorization",
   "TE", "Trailer", "Transfer-Encoding", "Upgrade"]

/-- Go `cache.stripHopByHop`: drop every entry whose canonicalized key matches
one of the `switch` cases, keep all other entries (values copied). -/
def stripHopByHop (h : Headers) : Headers :=
  h.filter (fun kv => !(storeHopList.contains (canonicalHeaderKey kv.1)))

/-- Characters of a string folded to lower case (ASCII). -/
def lowerChars (s : String) : List Char :=
  s.data.map Char.toLower

/-- Go `strings.EqualFold`, restricted to ASCII case folding (all header-name
constants involved are ASCII). -/
def eqFold (a b : String) : Bool :=
  lowerChars a == lowerChars b

/-- Go `proxy.hopHeaders` (`handler.go` lines 9–18). -/
def hopHeadersProxy : List String :=
  ["Connection", "Keep-Alive", "Proxy-Authenticate", "Proxy-Authorization",
   "Te", "Trailers", "Transfer-Encoding", "Upgrade"]

/-- Go `proxy.isHopHeader`: case-insensitive membership in `hopHeaders`. -/
def isHopHeader (k : String) : Bool :=
  hopHeadersProxy.any (fun h => eqFold h k)

/-- Go `http.Header.Add`: canonicalize the key and append the value. -/
def headerAdd (dst : Headers) (k v : String) : Headers :=
  let ck := canonicalHeaderKey k
  if (dst.find? (fun kv => kv.1 == ck)).isSome then
    dst.map (fun kv => if kv.1 == ck then (kv.1, kv.2 ++ [v]) else kv)
  else
    dst ++ [(ck, [v])]

/-- Go `proxy.copyHeader`: copy every non-hop-by-hop entry of `src` onto `dst`
via `Header.Add`. -/
def copyHeader (dst src : Headers) : Headers :=
  src.foldl
    (fun d kv =>
      if isHopHeader kv.1 then d
      else kv.2.foldl (fun d2 v => headerAdd d2 kv.1 v) d)
    dst

/-! ### Health checker construction (`internal/checker/checker.go`) -/

/-- Go `config.HealthCheckerConfig` (`max_concurrent_checks`, interval and
timeout in nanoseconds). -/
structure HealthCheckerConfig where
  maxConcurrentChecks : Int
  interval : Int
  timeout : Int
  deriving Repr, DecidableEq

/-- The fields of `checker.HealthChecker` that `New` computes (the probing
bound, the tick interval and the per-request timeout). -/
structure HealthCheckerState where
  maxConcurrentChecks : Int
  interval : Int
  timeout : Int
  deriving Repr, DecidableEq

/-- Constant `config.DefaultMaxConcurrentChecks` (`src/unnamed/part_024`). -/
def defaultMaxConcurrentChecks : Int := 10

/-- Constant `config.DefaultInterval` = 10 s. -/
def defaultInterval : Int := 10 * second

/-- Constant `config.DefaultTimeout` = 5 s. -/
def defaultTimeout : Int := 5 * second

/-- Go `checker.New` (`checker.go` lines 21–66): `nil` config takes every
default; otherwise interval and timeout are taken from the config with a
fallback when non-positive, while `maxConcurrentChecks` starts at the Go
zero value and is assigned only in the `cfg.MaxConcurrentChecks <= 0`
branch. -/
def checkerNew (cfg : Option HealthCheckerConfig) : HealthCheckerState :=
  match cfg with
  | none =>
    { maxConcurrentChecks := defaultMaxConcurrentChecks
      interval := defaultInterval, timeout := defaultTimeout }
  | some c =>
    let interval := c.interval
    let timeout := c.timeout
    let interval := if interval ≤ 0 then defaultInterval else interval
    let timeout := if timeout ≤ 0 then defaultTimeout else timeout
    let maxConcurrentChecks : Int := 0
    let maxConcurrentChecks :=
      if c.maxConcurrentChecks ≤ 0 then defaultMaxConcurrentChecks
      else maxConcurrentChecks
    { maxConcurrentChecks := maxConcurrentChecks
      interval := interval, timeout := timeout }

/-- Width of the semaphore built in `(*HealthChecker).Start`:
`make(chan struct{}, hc.maxConcurrentChecks)`. -/
def probeSemaphoreWidth (hc : HealthCheckerState) : Int :=
  hc.maxConcurrentChecks

/-! ### Client-IP extractor (`src/unnamed/part_011`, package `ip`)

IPv4 addresses are modelled as 32-bit numbers; `net.ParseIP` is embedded
for dotted-quad IPv4 addresses (it additionally accepts IPv6, which no
settled claim needs). -/

/-- Splitting a character list at every occurrence of a separator
character (Go `strings.Split` with a one-character separator). -/
def splitOnChar (sep : Char) : List Char → List (List Char)
  | [] => [[]]
  | c :: rest =>
    if c = sep then [] :: splitOnChar sep rest
    else
      match splitOnChar sep rest with
      | [] => [[c]]
      | h :: t => (c :: h) :: t

/-- One decimal field of a dotted quad: 1–3 digits, value ≤ 255, no
leading zero (as in Go ≥ 1.17's `net.ParseIP`). -/
def parseIPv4Field (l : List Char) : Option Nat :=
  if l.length = 0 || l.length > 3 then none
  else if !(l.all Char.isDigit) then none
  else if l.length > 1 && l.head? == some '0' then none
  else
    let v := l.foldl (fun acc c => acc * 10 + (c.toNat - 48)) 0
    if v ≤ 255 then some v else none

/-- Go `net.ParseIP` on an IPv4 dotted quad, as the 32-bit value. -/
def parseIPv4 (s : String) : Option Nat :=
  match splitOnChar '.' s.data with
  | [a, b, c, d] => do
    let x ← parseIPv4Field a
    let y ← parseIPv4Field b
    let z ← parseIPv4Field c
    let w ← parseIPv4Field d
    pure (x * 2 ^ 24 + y * 2 ^ 16 + z * 2 ^ 8 + w)
  | _ => none

/-- A `*net.IPNet`: 32-bit base address and mask width. -/
structure Cidr where
  base : Nat
  maskBits : Nat
  deriving Repr, DecidableEq

/-- Go `(*net.IPNet).Contains`: both addresses agree on the masked bits. -/
def cidrContains (c : Cidr) (ip : Nat) : Bool :=
  ip / 2 ^ (32 - c.maskBits) == c.base / 2 ^ (32 - c.maskBits)

/-- Go `(*Extractor).IsTrusted`: an unparseable address is not trusted;
otherwise membership in any trusted CIDR. -/
def isTrusted (cidrs : List Cidr) (ipStr : String) : Bool :=
  match parseIPv4 ipStr with
  | none => false
  | some ip => cidrs.any (fun c => cidrContains c ip)

/-- Go `strings.Split(s, ",")`. -/
def goSplitComma (s : String) : List String :=
  (splitOnChar ',' s.data).map (fun l => ⟨l⟩)

/-- Go `strings.TrimSpace` (ASCII whitespace; the claims only involve
ASCII). -/
def goTrim (s : String) : String :=
  ⟨((s.data.dropWhile Char.isWhitespace).reverse.dropWhile
      Char.isWhitespace).reverse⟩

/-- The right-to-left walk of `Extract` over the (reversed) comma-split
`X-Forwarded-For` list: skip empty entries, return the first trimmed entry
that is not trusted. -/
def extractWalk (cidrs : List Cidr) : List String → Option String
  | [] => none
  | ipRaw :: rest =>
    let ip := goTrim ipRaw
    if ip = "" then extractWalk cidrs rest
    else if !(isTrusted cidrs ip) then some ip
    else extractWalk cidrs rest

/-- Go `(*Extractor).Extract` (`part_011` lines 40–81), after the peer address
has been split from its port: `remoteIP` is the immediate peer, `xff` the
`X-Forwarded-For` header value (`""` when absent). -/
def extract (cidrs : List Cidr) (remoteIP xff : String) : String :=
  if cidrs.isEmpty then remoteIP
  else if !(isTrusted cidrs remoteIP) then remoteIP
  else if xff ≠ "" then
    let ips := goSplitComma xff
    match extractWalk cidrs ips.reverse with
    | some ip => ip
    | none =>
      if ips.length > 0 then goTrim (ips.headD "")
      else remoteIP
  else remoteIP

/-! ### Random-weighted strategy
(`internal/loadbalancer/balancer/random_weight.go`)

Randomness is embedded by a stream `rands : Nat → Nat` of raw draws; the
`i`-th call of `rand.Intn m` uses `rands i % m`, and `rand.Intn m` with
`m ≤ 0` panics. -/

/-- Go `rand.Intn`: panics (`none`) unless the bound is positive. -/
def randIntn (r m : Nat) : Option Nat :=
  if m = 0 then none else some (r % m)

/-- The selection loop of `(*randomWeight).Next`: draw `count` random
indices (draws `i`, `i+1`, …) and keep the first backend with the highest
weight. -/
def rwGo (rands : Nat → Nat) (backends : List BackendState) :
    Nat → Nat → Option BackendState → Option BackendState
  | 0, _, sel => sel
  | k + 1, i, sel =>
    let b := backends[(rands i) % backends.length]?
    let sel2 :=
      match b, sel with
      | some bb, none => some bb
      | some bb, some s => if bb.weight > s.weight then some bb else some s
      | none, s => s
    rwGo rands backends k (i + 1) sel2

/-- Go `(*randomWeight).Next` (`random_weight.go` lines 21–42): `nil` for an
empty sequence; otherwise `randomN := rand.Intn(n/2) + 1` candidates are
sampled and the heaviest one returned.  `Except.error` models the
`rand.Intn` panic. -/
def randomWeightNext (rands : Nat → Nat) (backends : List BackendState) :
    Except String (Option BackendState) :=
  let n := backends.length
  if n = 0 then .ok none
  else
    match randIntn (rands 0) (n / 2) with
    | none => .error "invalid argument to Intn"
    | some k => .ok (rwGo rands backends (k + 1) 1 none)

/-! ### Round-robin strategy (`internal/loadbalancer/balancer/round.go`,
the `uint64` variant of lines 49–59) -/

/-- The modulus of `uint64` arithmetic. -/
def U64 : Nat := 2 ^ 64

/-- Go `roundRobin`: the backend snapshot and the stored `uint64` cursor. -/
structure RoundRobinState where
  backends : List BackendState
  index : Nat
  deriving Repr, DecidableEq

/-- Go `(*roundRobin).Next`: `nil` for an empty sequence; otherwise
`val := atomic.AddUint64(&rr.index, 1)` and the returned backend is
`backends[(val - 1) % uint64(n)]`, both computed modulo `2^64`. -/
def roundRobinNext (rr : RoundRobinState) :
    Option BackendState × RoundRobinState :=
  let n := rr.backends.length
  if n = 0 then (none, rr)
  else
    let val := (rr.index + 1) % U64
    let idx := (val + (U64 - 1)) % U64 % n
    (rr.backends[idx]?, { rr with index := val })

/-- Results of `k` consecutive `Next()` calls: the list of results and final state. -/
def rrRun : RoundRobinState → Nat → List (Option BackendState) × RoundRobinState
  | rr, 0 => ([], rr)
  | rr, k + 1 =>
    let s := roundRobinNext rr
    let rest := rrRun s.2 k
    (s.1 :: rest.1, rest.2)

/-! ### Conditional cache insert (`internal/proxy/cache.go`
`tryCachingResponse`) -/

/-- The keys of the package-level `methods` map (all mapped to `true`). -/
def cacheMethods : List String := ["GET", "HEAD", "POST", "PATCH"]

/-- The keys of the package-level `codes` map (all mapped to `true`). -/
def cacheCodes : List Nat :=
  [200, 203, 204, 206, 300, 301, 308, 404, 405, 410, 414, 501,
   302, 307, 416, 421, 426, 428, 429, 431, 451, 502, 503, 504]

/-- Whether `sub` occurs as a contiguous run inside the second list. -/
def listHasInfix (sub : List Char) : List Char → Bool
  | [] => sub.isEmpty
  | c :: rest => sub.isPrefixOf (c :: rest) || listHasInfix sub rest

/-- Go `strings.Contains`. -/
def goContains (s sub : String) : Bool :=
  listHasInfix sub.data s.data

/-- Splitting a character list at every (leftmost, non-overlapping)
occurrence of a non-empty separator, accumulating the current field
(Go `strings.Split`). -/
def goSplitAux (sep : List Char) : List Char → List Char → List (List Char)
  | [], acc => [acc.reverse]
  | c :: rest, acc =>
    if sep.isPrefixOf (c :: rest) then
      acc.reverse :: goSplitAux sep (List.drop (sep.length - 1) rest) []
    else
      goSplitAux sep rest (c :: acc)
  termination_by l _ => l.length
  decreasing_by
    · simp [List.length_drop]
      omega
    · simp

/-- Go `strings.Split(s, sep)` for a non-empty separator. -/
def goSplit (s sep : String) : List String :=
  (goSplitAux sep.data s.data []).map (fun l => ⟨l⟩)

/-- Go `strconv.Atoi` with the error ignored (`v, _ := strconv.Atoi(s)`): the
Go zero value `0` on a parse failure. -/
def goAtoi (s : String) : Int :=
  (s.toInt?).getD 0

/-- The `Cache-Control` loop of steps [3]–[4]: per value, in order,
`no-store` then `private`. -/
def ccScan : List String → Option String
  | [] => none
  | v :: rest =>
    if goContains v "no-store" then some "Cache-Control: no-store"
    else if goContains v "private" then some "Cache-Control: private"
    else ccScan rest

/-- Freshness state of step [6]: the `contains` flag, the
`explicitFreshness` flag and the running `expiresAt` instant. -/
abbrev FreshState := Bool × Bool × Int

/-- Branch 6(b) of `tryCachingResponse`: when the first `Cache-Control`
value mentions `max-age`, split on `"max-age="` (Go `strings.Split`) and index element 1
(unguarded: `none` models the out-of-range panic when `max-age` appears
without `=`), set both flags and recompute `expiresAt`. -/
def maxAgeStep (cc0 : String) (now : Int) (st : FreshState) :
    Option FreshState :=
  if goContains cc0 "max-age" then
    match (goSplit cc0 "max-age=")[1]? with
    | none => none
    | some part => some (true, true, now + goAtoi part * second)
  else some st

/-- Branch 6(c) of `tryCachingResponse`, the `s-maxage` analogue of
`maxAgeStep`. -/
def sMaxAgeStep (cc0 : String) (now : Int) (st : FreshState) :
    Option FreshState :=
  if goContains cc0 "s-maxage" then
    match (goSplit cc0 "s-maxage=")[1]? with
    | none => none
    | some part => some (true, true, now + goAtoi part * second)
  else some st

/-- Branches 6(b)–(e) and steps [7]–[8] of `tryCachingResponse`, given the
freshness state after the `Expires` check. -/
def freshnessTail (method : String) (statusCode : Nat) (cc0 : String)
    (now : Int) (st1 : FreshState) : Option (Bool × String) :=
  match maxAgeStep cc0 now st1 with
  | none => none
  | some st2 =>
    match sMaxAgeStep cc0 now st2 with
    | none => none
    | some st3 =>
      let st4 := if goContains cc0 "public" then (true, st3.2.1, st3.2.2) else st3
      let st5 := if cacheCodes.contains statusCode then (true, st4.2.1, st4.2.2) else st4
      if !st5.1 then
        some (false, "No freshness info, nor cacheable by default")
      else if (method = "POST" || method = "PATCH") && !st5.2.1 then
        some (false, "No explicit freshness")
      else if !(cacheMethods.contains method) then
        some (false, "Method not cacheable")
      else
        some (true, "Stored")

/-- Steps [6]–[8] of `tryCachingResponse`, given the first `Expires` and
`Cache-Control` values.  `time.Parse` of the `Expires` value is modelled
as the zero instant: the parsed value only flows into the stored entry's
expiry, on which no settled claim depends. -/
def freshnessStep (method : String) (statusCode : Nat) (cc0 exp0 : String)
    (now : Int) : Option (Bool × String) :=
  freshnessTail method statusCode cc0 now
    (if goContains exp0 "Expires" then ((true, true, 0) : FreshState)
     else ((false, false, 0) : FreshState))

/-- Go `(*Proxy).tryCachingResponse` (`proxy/cache.go` lines 54–164).
`none` models a runtime panic (an out-of-range index on a header-value
slice or on a split).  `storeResponse` (a gob encode plus a cache `Set`)
is modelled as succeeding, so step [8] yields `(true, "Stored")`. -/
def tryCachingResponse (method : String) (statusCode : Nat)
    (headers : Headers) (now : Int) : Option (Bool × String) :=
  -- [1]
  if !(cacheMethods.contains method) then
    some (false, "Method not cacheable")
  -- [2]
  else if !(cacheCodes.contains statusCode) then
    some (false, "Status code not understood")
  else
    -- [3]–[4]
    match ccScan (headerIndex headers "Cache-Control") with
    | some reason => some (false, reason)
    | none =>
      -- [5]: unguarded headers["Authorization"][0]
      match (headerIndex headers "Authorization")[0]? with
      | none => none
      | some auth =>
        let bearer : Option (Option (Bool × String)) :=
          if goContains auth "Bearer" then
            match (headerIndex headers "Cache-Control")[0]? with
            | none => none
            | some cc =>
              if !(goContains cc "public" || goContains cc "s-maxage"
                  || goContains cc "ust-revalidate") then
                some (some (false, "Not explicitly cacheable"))
              else
                some none
          else some none
        match bearer with
        | none => none
        | some (some r) => some r
        | some none =>
          -- [6]: unguarded headers["Expires"][0], headers["Cache-Control"][0]
          match (headerIndex headers "Expires")[0]? with
          | none => none
          | some exp0 =>
            match (headerIndex headers "Cache-Control")[0]? with
            | none => none
            | some cc0 => freshnessStep method statusCode cc0 exp0 now

/-! ## Claim theorems -/

/-- C1.  The claim says the backoff after `k` consecutive probe failures
from a fresh state is `min(2^k s, 60 s)` and always stays within
`[1 s, 60 s]`.  Evaluating `UpdateHealth` at the failing input `k = 6`:
the code checks `backoffTime < 60 s` *before* doubling, so 32 s doubles
to 64 s, exceeding both the claimed value `min(2^6 s, 60 s) = 60 s` and
the claimed 60 s cap (the code's own comment also says
"upper limit of 60 seconds"). -/
theorem C1_backoff_exceeds_sixty_seconds :
    (afterFailures 5).backoffTime = 32 * second ∧
    (afterFailures 6).backoffTime = 64 * second ∧
    60 * second < (afterFailures 6).backoffTime ∧
    min ((2 : Int) ^ 6 * second) (60 * second) = 60 * second := by
  refine ⟨by decide, by decide, by decide, by decide⟩

/-- C2 counterexample.  With the fixed-window limiter at limit 2 and
`lastTick = 0`, three back-to-back requests at 0 ms, 50 ms and 100 ms:
the third is denied, but its `Retry-After` header is `"0"`, not the
claimed `"1"` — `int(retryAfter.Seconds())` truncates the 900 ms wait to
0 instead of taking the ceiling. -/
theorem C2_counterexample :
    (limitingStep ⟨2, 0, 0⟩ 0).1 = none ∧
    (limitingStep (limitingStep ⟨2, 0, 0⟩ 0).2 (50 * 1000000)).1 = none ∧
    (limitingStep (limitingStep (limitingStep ⟨2, 0, 0⟩ 0).2
        (50 * 1000000)).2 (100 * 1000000)).1 = some (429, "0") ∧
    ("0" : String) ≠ "1" := by
  refine ⟨rfl, rfl, by decide, by decide⟩

/-- C2, amended.  Whenever the fixed-window limiter denies a request the
middleware responds 429 with a `Retry-After` header equal to the
*truncation* (not the ceiling) of the returned wait in seconds; in the
literal scenario — limit 2, three requests strictly inside the current
one-second window — the first two are forwarded and the third receives
429 with `Retry-After: 0`. -/
theorem C2_denied_requests_get_truncated_retry_after :
    (∀ (f : FixedLimiter) (now : Int), (fixedAllow f now).1.1 = false →
      (limitingStep f now).1 =
        some (429, toString (goDurationSecondsInt ((f.lastTick + second) - now)))) ∧
    (∀ t0 d1 d2 d3 : Int, 0 ≤ d1 → d1 ≤ d2 → d2 ≤ d3 → 0 < d3 → d3 < second →
      (limitingStep ⟨2, 0, t0⟩ (t0 + d1)).1 = none ∧
      (limitingStep (limitingStep ⟨2, 0, t0⟩ (t0 + d1)).2 (t0 + d2)).1 = none ∧
      (limitingStep (limitingStep (limitingStep ⟨2, 0, t0⟩ (t0 + d1)).2
          (t0 + d2)).2 (t0 + d3)).1 = some (429, "0")) := by
  constructor
  · intro f now h
    by_cases hc : f.counter ≥ f.limit
    · simp [limitingStep, fixedAllow, hc]
    · simp [fixedAllow, hc] at h
  · intro t0 d1 d2 d3 h1 h2 h3 h4 h5
    have step1 : limitingStep ⟨2, 0, t0⟩ (t0 + d1) = (none, ⟨2, 1, t0⟩) := by
      simp [limitingStep, fixedAllow]
    have step2 : limitingStep ⟨2, 1, t0⟩ (t0 + d2) = (none, ⟨2, 2, t0⟩) := by
      simp [limitingStep, fixedAllow]
    have hwait : (t0 + second) - (t0 + d3) = second - d3 := by ring
    have htdiv : goDurationSecondsInt (second - d3) = 0 := by
      unfold goDurationSecondsInt
      exact Int.tdiv_eq_zero_of_lt (by omega) (by omega)
    have step3 : (limitingStep ⟨2, 2, t0⟩ (t0 + d3)).1 = some (429, "0") := by
      simp [limitingStep, fixedAllow, hwait, htdiv]
      rfl
    rw [step1]
    rw [step2]
    exact ⟨rfl, rfl, step3⟩

/-- C3 counterexample.  For inbound path `/x` with query `a=1` against
backend base `http://b`, the code builds `http://b/x` — the query string
is dropped, while the claim requires `http://b/x?a=1`. -/
theorem C3_counterexample :
    outboundUrl "http://b" "/x" "a=1" = "http://b/x" ∧
    specOutboundUrl "http://b" "/x" "a=1" = "http://b/x?a=1" ∧
    outboundUrl "http://b" "/x" "a=1" ≠ specOutboundUrl "http://b" "/x" "a=1" := by
  refine ⟨rfl, rfl, by decide⟩

/-- C3, amended.  The outbound URL is the selected backend's base URL
concatenated with the inbound path only; it coincides with the
spec-described base-plus-path-plus-query exactly when the query string is
empty, so a non-empty query is not preserved. -/
theorem C3_query_dropped (b p q : String) :
    outboundUrl b p q = b ++ p ∧
    (outboundUrl b p q = specOutboundUrl b p q ↔ q = "") := by
  refine ⟨rfl, ?_, ?_⟩
  · intro h
    by_contra hq
    simp only [outboundUrl, specOutboundUrl, if_neg hq] at h
    have hl := congrArg String.length h
    simp only [String.length_append] at hl
    have h1 : ("?" : String).length = 1 := by decide
    omega
  · intro h
    simp [outboundUrl, specOutboundUrl, h]

/-- C4 counterexample.  At `now = expires_at` (both 5) the entry is *not*
treated as expired (`time.Now().After` is strict), contradicting
`IsExpired() ≡ now ≥ expires_at`; consequently `Get` at exactly
`expires_at` returns the entry, contradicting "retrieved strictly before
its expires_at". -/
theorem C4_counterexample :
    entryIsExpired ⟨[], [], 5⟩ 5 = false ∧
    ¬(entryIsExpired ⟨[], [], 5⟩ 5 = true ↔ (5 : Int) ≥ 5) ∧
    (memGet [("k", ⟨[1], [], 5⟩)] "k" 5).1 = some ([1], []) := by
  refine ⟨rfl, by decide, rfl⟩

/-- C4, amended.  A cache entry is expired exactly when
`now > expires_at` (strictly); a lookup performed exactly at `expires_at`
is a hit, and every entry returned by `Get` is retrieved at or before its
`expires_at` (`now ≤ expires_at`). -/
theorem C4_expiry_is_strict (e : CacheEntry) (now : Int)
    (items : List (String × CacheEntry)) (key : String)
    (r : List Nat × Headers) :
    (entryIsExpired e now = true ↔ e.expires < now) ∧
    ((memGet items key now).1 = some r →
      ∃ kv ∈ items, kv.1 = key ∧ now ≤ kv.2.expires ∧
        r = (kv.2.body, kv.2.headers)) := by
  constructor
  · simp [entryIsExpired]
  · intro h
    unfold memGet at h
    cases hfind : items.find? (fun kv => kv.1 == key) with
    | none => rw [hfind] at h; simp at h
    | some kv =>
      rw [hfind] at h
      by_cases hexp : entryIsExpired kv.2 now = true
      · simp [hexp] at h
      · simp [hexp] at h
        refine ⟨kv, List.mem_of_find?_eq_some hfind, ?_, ?_, h.symm⟩
        · have := List.find?_some hfind
          simpa using this
        · simp [entryIsExpired] at hexp
          omega

/-- Closed witness for the amended C4 theorem at a concrete store. -/
theorem C4_expiry_is_strict_witness :
    ∃ kv ∈ [("k", (⟨[1], [], 5⟩ : CacheEntry))], kv.1 = "k" ∧
      (5 : Int) ≤ kv.2.expires ∧
      (([1], []) : List Nat × Headers) = (kv.2.body, kv.2.headers) :=
  (C4_expiry_is_strict ⟨[], [], 5⟩ 5 [("k", ⟨[1], [], 5⟩)] "k" ([1], [])).2 rfl

/-- C6.  The claim (and the spec) say a configuration with
`max_concurrent_checks = k > 0` yields a probing bound of `k`; the code
declares the local variable, assigns it only in the non-positive branch,
and so leaves the bound at the Go zero value 0 for every positive
configured value (here `k = 5`), while the nil-config and non-positive
cases do default to 10. -/
theorem C6_configured_bound_dropped :
    probeSemaphoreWidth (checkerNew (some ⟨5, 10 * second, 5 * second⟩)) = 0 ∧
    probeSemaphoreWidth (checkerNew (some ⟨5, 10 * second, 5 * second⟩)) ≠ 5 ∧
    probeSemaphoreWidth (checkerNew none) = 10 ∧
    probeSemaphoreWidth (checkerNew (some ⟨0, 10 * second, 5 * second⟩)) = 10 := by
  refine ⟨rfl, by decide, rfl, rfl⟩

/-- Helper: ASCII lower-casing never produces the upper-case letter `E`. -/
theorem charToLowerNeE (c : Char) : c.toLower ≠ 'E' := by
  unfold Char.toLower
  intro h
  by_cases hc : c.toNat ≥ 65 ∧ c.toNat ≤ 90
  · rw [if_pos hc] at h
    have hv : (c.toNat + 32).isValidChar := Or.inl (by omega)
    have ht : (Char.ofNat (c.toNat + 32)).toNat = c.toNat + 32 := by
      unfold Char.ofNat
      rw [dif_pos hv]
      rfl
    rw [h] at ht
    have he : ('E' : Char).toNat = 69 := by decide
    omega
  · rw [if_neg hc] at h
    subst h
    exact hc ⟨by decide, by decide⟩

/-- Helper: the canonical capitalization never yields the list `T`, `E`
(the second character of a canonical key is lower-cased unless it follows
a hyphen). -/
theorem canonAuxNeTE (l : List Char) : canonAux true l ≠ ['T', 'E'] := by
  match l with
  | [] => simp [canonAux]
  | [c] =>
    intro h
    simp only [canonAux] at h
    rw [List.cons_eq_cons] at h
    exact List.cons_ne_nil 'E' [] h.2.symm
  | c1 :: c2 :: rest =>
    intro h
    simp only [canonAux] at h
    rw [List.cons_eq_cons] at h
    obtain ⟨h1, h2⟩ := h
    rw [h1] at h2
    have hflag : (('T' : Char) == '-') = false := by decide
    rw [hflag] at h2
    unfold canonAux at h2
    simp only [Bool.false_eq_true, if_false] at h2
    rw [List.cons_eq_cons] at h2
    exact charToLowerNeE c2 h2.1

/-- Helper: no header key canonicalizes to the literal `"TE"`, so the
`case "TE"` arm of `stripHopByHop`'s switch is unreachable. -/
theorem canonicalNeTE (k : String) : canonicalHeaderKey k ≠ "TE" := by
  unfold canonicalHeaderKey
  by_cases hv : k.data.all isTokenChar
  · rw [if_pos hv]
    intro h
    have hd := congrArg String.data h
    simp only at hd
    exact canonAuxNeTE k.data hd
  · rw [if_neg hv]
    intro h
    subst h
    exact hv (by decide)

/-- C5 counterexample.  On a cache store, `stripHopByHop` keeps a `TE`
entry (its canonical key is `Te`, never the switch literal `"TE"`) and
keeps a `Trailers` entry, while removing `Trailer` — the claim requires
exactly the eight headers including `TE` and `Trailers` to be removed. -/
theorem C5_counterexample :
    stripHopByHop [("TE", ["gzip"])] = [("TE", ["gzip"])] ∧
    stripHopByHop [("Trailers", ["x"])] = [("Trailers", ["x"])] ∧
    stripHopByHop [("Trailer", ["y"])] = [] := by
  refine ⟨by decide, by decide, by decide⟩

/-- C5, amended.  On a cross-hop copy the removed set is exactly the
claimed eight headers, matched by ASCII case folding; on a cache store the
effective removed set is instead `Connection, Keep-Alive,
Proxy-Authenticate, Proxy-Authorization, Trailer, Transfer-Encoding,
Upgrade`, matched on the Go-canonicalized key — `TE` and `Trailers`
survive the store strip and `Trailer` is removed — with every other entry
kept unchanged. -/
theorem C5_hop_by_hop_sets :
    (∀ k, isHopHeader k = true ↔
      lowerChars k ∈ (["connection", "keep-alive", "proxy-authenticate",
        "proxy-authorization", "te", "trailers", "transfer-encoding",
        "upgrade"] : List String).map lowerChars) ∧
    (∀ (h : Headers) (kv : String × List String),
      kv ∈ stripHopByHop h ↔ kv ∈ h ∧ canonicalHeaderKey kv.1 ∉
        (["Connection", "Keep-Alive", "Proxy-Authenticate",
          "Proxy-Authorization", "Trailer", "Transfer-Encoding",
          "Upgrade"] : List String)) ∧
    copyHeader [] [("TE", ["gzip"])] = [] ∧
    copyHeader [] [("Trailers", ["x"])] = [] ∧
    copyHeader [] [("X-Foo", ["1"])] = [("X-Foo", ["1"])] := by
  refine ⟨?_, ?_, by decide, by decide, by decide⟩
  · intro k
    have e1 : lowerChars "Connection" = lowerChars "connection" := rfl
    have e2 : lowerChars "Keep-Alive" = lowerChars "keep-alive" := rfl
    have e3 : lowerChars "Proxy-Authenticate" = lowerChars "proxy-authenticate" := rfl
    have e4 : lowerChars "Proxy-Authorization" = lowerChars "proxy-authorization" := rfl
    have e5 : lowerChars "Te" = lowerChars "te" := rfl
    have e6 : lowerChars "Trailers" = lowerChars "trailers" := rfl
    have e7 : lowerChars "Transfer-Encoding" = lowerChars "transfer-encoding" := rfl
    have e8 : lowerChars "Upgrade" = lowerChars "upgrade" := rfl
    simp only [isHopHeader, hopHeadersProxy, eqFold, List.any_cons, List.any_nil,
      Bool.or_eq_true, beq_iff_eq, e1, e2, e3, e4, e5, e6, e7, e8,
      List.map_cons, List.map_nil, List.mem_cons, List.not_mem_nil, or_false]
    tauto
  · intro h kv
    have hne := canonicalNeTE kv.1
    simp only [stripHopByHop, List.mem_filter, storeHopList, Bool.not_eq_eq_eq_not,
      Bool.not_true, List.contains_eq_any_beq, List.any_cons, List.any_nil,
      Bool.or_eq_true, beq_iff_eq, Bool.or_eq_false_iff, beq_eq_false_iff_ne,
      ne_eq, List.mem_cons, List.not_mem_nil, or_false]
    tauto

/-- Helper: a walk over entries that are all empty or trusted finds
nothing. -/
theorem extractWalk_all_trusted (cidrs : List Cidr) (l : List String)
    (h : ∀ r ∈ l, goTrim r = "" ∨ isTrusted cidrs (goTrim r) = true) :
    extractWalk cidrs l = none := by
  induction l with
  | nil => rfl
  | cons a rest ih =>
    have ha := h a (List.mem_cons_self a rest)
    have hr : ∀ r ∈ rest, goTrim r = "" ∨ isTrusted cidrs (goTrim r) = true :=
      fun r hrm => h r (List.mem_cons_of_mem a hrm)
    simp only [extractWalk]
    by_cases he : goTrim a = ""
    · rw [if_pos he]
      exact ih hr
    · rw [if_neg he]
      rcases ha with h1 | h2
      · exact absurd h1 he
      · rw [h2]
        simp only [Bool.not_true, Bool.false_eq_true, if_false]
        exact ih hr

/-- Helper: the walk returns the trimmed form of the first non-empty
untrusted entry it reaches, after skipping empty-or-trusted entries. -/
theorem extractWalk_finds (cidrs : List Cidr) (l1 : List String) (raw : String)
    (l2 : List String)
    (h1 : ∀ r ∈ l1, goTrim r = "" ∨ isTrusted cidrs (goTrim r) = true)
    (h2 : goTrim raw ≠ "") (h3 : isTrusted cidrs (goTrim raw) = false) :
    extractWalk cidrs (l1 ++ raw :: l2) = some (goTrim raw) := by
  induction l1 with
  | nil =>
    simp only [List.nil_append, extractWalk]
    rw [if_neg h2, h3]
    simp
  | cons a rest ih =>
    have ha := h1 a (List.mem_cons_self a rest)
    have hr : ∀ r ∈ rest, goTrim r = "" ∨ isTrusted cidrs (goTrim r) = true :=
      fun r hrm => h1 r (List.mem_cons_of_mem a hrm)
    simp only [List.cons_append, extractWalk]
    by_cases he : goTrim a = ""
    · rw [if_pos he]
      exact ih hr
    · rw [if_neg he]
      rcases ha with hx | hx
      · exact absurd hx he
      · rw [hx]
        simp only [Bool.not_true, Bool.false_eq_true, if_false]
        exact ih hr

/-- Helper: splitting never yields the empty list of fields. -/
theorem splitOnChar_ne_nil (sep : Char) (l : List Char) :
    splitOnChar sep l ≠ [] := by
  induction l with
  | nil => simp [splitOnChar]
  | cons c rest ih =>
    simp only [splitOnChar]
    by_cases hc : c = sep
    · rw [if_pos hc]; simp
    · rw [if_neg hc]
      cases hsp : splitOnChar sep rest with
      | nil => simp
      | cons h t => simp

/-- C7 counterexample.  Trusted CIDR `10.0.0.0/8`, peer `10.0.0.1`,
`X-Forwarded-For: 1.2.3.4, bogus`: walking right to left, `bogus` does not
parse, so `IsTrusted` reports it untrusted and `Extract` *returns* it —
the claim says invalid addresses are skipped and never returned (here
`1.2.3.4` would be expected). -/
theorem C7_counterexample :
    extract [Cidr.mk (10 * 2 ^ 24) 8] "10.0.0.1" "1.2.3.4, bogus" = "bogus" ∧
    parseIPv4 "bogus" = none ∧
    ("bogus" : String) ≠ "1.2.3.4" := by
  refine ⟨by decide, rfl, by decide⟩

/-- C7, amended.  When the peer is inside a trusted CIDR and
`X-Forwarded-For` is present, `Extract` walks the comma-split list from
right to left and returns the trimmed form of the first entry that is not
trusted, where an unparseable entry counts as untrusted and therefore *is*
returned (not skipped); if every entry is empty or trusted, the leftmost
entry is returned trimmed. -/
theorem C7_extract_rightmost_untrusted (cidrs : List Cidr) (remote xff : String)
    (pre post : List String) (raw : String)
    (hc : cidrs ≠ []) (ht : isTrusted cidrs remote = true) (hx : xff ≠ "") :
    (goSplitComma xff = pre ++ raw :: post →
      goTrim raw ≠ "" → isTrusted cidrs (goTrim raw) = false →
      (∀ r ∈ post, goTrim r = "" ∨ isTrusted cidrs (goTrim r) = true) →
      extract cidrs remote xff = goTrim raw) ∧
    ((∀ r ∈ goSplitComma xff, goTrim r = "" ∨ isTrusted cidrs (goTrim r) = true) →
      extract cidrs remote xff = goTrim ((goSplitComma xff).headD "")) := by
  have hne : goSplitComma xff ≠ [] := by
    unfold goSplitComma
    intro h
    exact splitOnChar_ne_nil ',' xff.data (List.map_eq_nil_iff.mp h)
  have h1 : cidrs.isEmpty = false := by
    cases cidrs with
    | nil => exact absurd rfl hc
    | cons a l => rfl
  constructor
  · intro hsp hraw huntr hpost
    unfold extract
    rw [h1]
    simp only [Bool.false_eq_true, if_false]
    rw [ht]
    simp only [Bool.not_true, Bool.false_eq_true, if_false]
    rw [if_pos hx, hsp]
    have hrev : (pre ++ raw :: post).reverse = post.reverse ++ raw :: pre.reverse := by
      simp [List.reverse_append]
    rw [hrev]
    have hpostrev : ∀ r ∈ post.reverse, goTrim r = "" ∨ isTrusted cidrs (goTrim r) = true :=
      fun r hr => hpost r (List.mem_reverse.mp hr)
    rw [extractWalk_finds cidrs post.reverse raw pre.reverse hpostrev hraw huntr]
  · intro hall
    unfold extract
    rw [h1]
    simp only [Bool.false_eq_true, if_false]
    rw [ht]
    simp only [Bool.not_true, Bool.false_eq_true, if_false]
    rw [if_pos hx]
    have hallrev : ∀ r ∈ (goSplitComma xff).reverse,
        goTrim r = "" ∨ isTrusted cidrs (goTrim r) = true :=
      fun r hr => hall r (List.mem_reverse.mp hr)
    rw [extractWalk_all_trusted cidrs (goSplitComma xff).reverse hallrev]
    rw [if_pos (List.length_pos.mpr hne)]

/-- Closed witness for the amended C7 theorem: the rightmost-untrusted
case (returning the unparseable ` bogus` trimmed) and the all-trusted
case (returning the leftmost entry trimmed). -/
theorem C7_extract_rightmost_untrusted_witness :
    extract [Cidr.mk (10 * 2 ^ 24) 8] "10.0.0.1" "1.2.3.4, bogus" = goTrim " bogus" ∧
    extract [Cidr.mk (10 * 2 ^ 24) 8] "10.0.0.1" "10.0.0.7, 10.0.0.9" =
      goTrim ((goSplitComma "10.0.0.7, 10.0.0.9").headD "") :=
  ⟨(C7_extract_rightmost_untrusted [Cidr.mk (10 * 2 ^ 24) 8] "10.0.0.1" "1.2.3.4, bogus"
      ["1.2.3.4"] [] " bogus" (by decide) (by decide) (by decide)).1
      (by decide) (by decide) (by decide) (by decide),
   (C7_extract_rightmost_untrusted [Cidr.mk (10 * 2 ^ 24) 8] "10.0.0.1" "10.0.0.7, 10.0.0.9"
      [] [] "" (by decide) (by decide) (by decide)).2 (by decide)⟩

/-- Helper: once the random-weighted selection loop holds a candidate, it
keeps holding one. -/
theorem rwGo_preserves_some (rands : Nat → Nat) (backends : List BackendState) :
    ∀ (cnt i : Nat) (b0 : BackendState),
      ∃ b, rwGo rands backends cnt i (some b0) = some b := by
  intro cnt
  induction cnt with
  | zero => intro i b0; exact ⟨b0, rfl⟩
  | succ k ih =>
    intro i b0
    simp only [rwGo]
    cases hb : backends[(rands i) % backends.length]? with
    | none => exact ih (i + 1) b0
    | some bb =>
      by_cases hw : bb.weight > b0.weight
      · simp only [if_pos hw]
        exact ih (i + 1) bb
      · simp only [if_neg hw]
        exact ih (i + 1) b0

/-- C8 counterexample.  For a backend sequence of length 1, the
random-weighted `Next()` calls `rand.Intn(n/2) = rand.Intn(0)`, which
panics — it does not return the lone backend, contradicting the claim
that `Next()` is well-defined for `N = 1`. -/
theorem C8_counterexample :
    randomWeightNext (fun _ => 0) [newBackend "a" "u" "h" 1 100 0] =
      .error "invalid argument to Intn" := rfl

/-- C8, amended.  For every backend sequence whose length is not 1 the
random-weighted `Next()` is well-defined: it returns `nil` exactly on the
empty sequence and returns some backend on every sequence of length ≥ 2
(sampling a uniformly random number `j ∈ [1, N/2]` of candidates, not the
fixed `k = max(1, N/2)` the claim describes); for a sequence of length 1
it faults in `rand.Intn(0)`. -/
theorem C8_nil_iff_empty (rands : Nat → Nat)
    (backends : List BackendState) (hn : backends.length ≠ 1) :
    (randomWeightNext rands backends = .ok none ↔ backends = []) ∧
    (backends ≠ [] → ∃ b, randomWeightNext rands backends = .ok (some b)) := by
  by_cases h0 : backends.length = 0
  · have hbe : backends = [] := List.length_eq_zero.mp h0
    subst hbe
    constructor
    · simp [randomWeightNext]
    · intro h; exact absurd rfl h
  · have h2 : 2 ≤ backends.length := by omega
    have hne : backends ≠ [] := by
      intro h; subst h; simp at h0
    have hdiv : backends.length / 2 ≠ 0 := by omega
    have hres : ∃ b, randomWeightNext rands backends = .ok (some b) := by
      unfold randomWeightNext
      rw [if_neg h0]
      unfold randIntn
      rw [if_neg hdiv]
      have hidx : (rands 1) % backends.length < backends.length :=
        Nat.mod_lt _ (by omega)
      have hbb := List.getElem?_eq_getElem hidx
      simp only [rwGo, hbb]
      obtain ⟨b, hb⟩ := rwGo_preserves_some rands backends
        ((rands 0) % (backends.length / 2)) 2
        (backends.get ⟨(rands 1) % backends.length, hidx⟩)
      exact ⟨b, by rw [← hb]; rfl⟩
    constructor
    · obtain ⟨b, hb⟩ := hres
      rw [hb]
      simp [hne]
    · intro _; exact hres

/-- Closed witness for the amended C8 theorem: a two-backend sequence
yields some backend. -/
theorem C8_nil_iff_empty_witness :
    ∃ b, randomWeightNext (fun _ => 0)
      [newBackend "a" "u" "h" 1 100 0, newBackend "b" "u" "h" 7 100 0] =
        .ok (some b) :=
  (C8_nil_iff_empty (fun _ => 0)
    [newBackend "a" "u" "h" 1 100 0, newBackend "b" "u" "h" 7 100 0]
    (by decide)).2 (by decide)

/-- Helper: one `Next()` call at cursor `m < 2^64` returns
`backends[m % n]` and stores cursor `(m + 1) % 2^64` (the `uint64`
subtraction `val - 1` wraps back to the pre-increment cursor). -/
theorem roundRobinNext_eq (bs : List BackendState) (m : Nat)
    (hn : bs.length ≠ 0) (hm : m < U64) :
    roundRobinNext ⟨bs, m⟩ = (bs[m % bs.length]?, ⟨bs, (m + 1) % U64⟩) := by
  have hU : U64 = 18446744073709551616 := by norm_num [U64]
  have hA : ((m + 1) % U64 + (U64 - 1)) % U64 = m := by
    rw [hU] at hm ⊢
    omega
  unfold roundRobinNext
  rw [if_neg hn]
  dsimp only
  rw [hA]

/-- Helper: `N` calls starting at cursor `c` with `c + N ≤ 2^64` return
`backends[(c+i) % n]` for `i = 0 … N-1`. -/
theorem rrRun_eq (bs : List BackendState) (hn : bs.length ≠ 0) :
    ∀ (N c : Nat), c + N ≤ U64 →
      (rrRun ⟨bs, c⟩ N).1 =
        (List.range N).map (fun i => bs[(c + i) % bs.length]?) := by
  have hU : U64 = 18446744073709551616 := by norm_num [U64]
  intro N
  induction N with
  | zero => intro c h; rfl
  | succ k ih =>
    intro c h
    have hc : c < U64 := by rw [hU] at *; omega
    simp only [rrRun]
    rw [roundRobinNext_eq bs c hn hc]
    simp only []
    rw [List.range_succ_eq_map, List.map_cons, List.map_map]
    by_cases hcu : c + 1 < U64
    · have hmod : (c + 1) % U64 = c + 1 := Nat.mod_eq_of_lt hcu
      rw [hmod, ih (c + 1) (by omega)]
      congr 1
      apply List.map_congr_left
      intro a _
      have ha : c + 1 + a = c + (a + 1) := by omega
      simp [Function.comp, ha]
    · have hk : k = 0 := by rw [hU] at *; omega
      subst hk
      simp [rrRun]

/-- Helper: indexing the range of a list's positions yields the list of
`some` elements. -/
theorem range_map_getElemOpt (bs : List BackendState) :
    (List.range bs.length).map (fun t => bs[t]?) = bs.map some := by
  induction bs with
  | nil => rfl
  | cons a l ih =>
    simp only [List.length_cons, List.range_succ_eq_map, List.map_cons, List.map_map]
    congr 1
    · simp
    · rw [← ih]
      apply List.map_congr_left
      intro t _
      simp [Function.comp]

/-- Helper: the shifted index sequence is the rotation of the position
range. -/
theorem rotate_map_getElemOpt (bs : List BackendState) (c : Nat) :
    (List.range bs.length).map (fun i => bs[(c + i) % bs.length]?) =
    ((List.range bs.length).rotate (c % bs.length)).map (fun t => bs[t]?) := by
  apply List.ext_getElem
  · simp
  · intro i h1 h2
    simp only [List.getElem_map, List.getElem_range, List.getElem_rotate,
      List.length_range]
    congr 1
    conv_lhs => rw [Nat.add_comm c i, Nat.add_mod]
    conv_rhs => rw [Nat.add_mod]
    rw [Nat.mod_mod]

/-- C9 counterexample.  With three distinct backends and the `uint64`
cursor at `2^64 - 2`, the next window of `N = 3` calls returns backends
`b2, b0, b0`: backend `b0` is returned twice and `b1` never — the
wrap-around of the cursor breaks the exactly-once window property the
claim states for *any* window. -/
theorem C9_counterexample :
    ((rrRun ⟨[newBackend "b0" "u" "h" 1 100 0, newBackend "b1" "u" "h" 1 100 0,
        newBackend "b2" "u" "h" 1 100 0], U64 - 2⟩ 3).1).count
      (some (newBackend "b0" "u" "h" 1 100 0)) = 2 := by
  decide

/-- C9, amended.  Over any window of `N` consecutive `Next()` calls during
which the 64-bit cursor does not wrap (start cursor `c` with
`c + N ≤ 2^64`), the returned values are a permutation of the backend
sequence — for pairwise-distinct backends, each backend is returned
exactly once; the call at cursor `m` returns `backends[m mod N]`, the
cursor having been atomically incremented first (the `uint64` `val - 1`
reduction makes the index the pre-increment cursor modulo `N`). -/
theorem C9_window_no_wrap (backends : List BackendState) (c : Nat)
    (hn : backends ≠ []) (hc : c + backends.length ≤ U64) :
    ((rrRun ⟨backends, c⟩ backends.length).1).Perm (backends.map some) ∧
    (backends.Nodup → ∀ b ∈ backends,
      ((rrRun ⟨backends, c⟩ backends.length).1).count (some b) = 1) := by
  have hlen : backends.length ≠ 0 := by simpa using hn
  have hrun := rrRun_eq backends hlen backends.length c hc
  have hrot := rotate_map_getElemOpt backends c
  have hperm : ((rrRun ⟨backends, c⟩ backends.length).1).Perm (backends.map some) := by
    rw [hrun, hrot, ← range_map_getElemOpt]
    exact (List.rotate_perm (List.range backends.length) (c % backends.length)).map _
  refine ⟨hperm, ?_⟩
  intro hnd b hb
  have h1 : ((rrRun ⟨backends, c⟩ backends.length).1).count (some b) =
      ((rrRun ⟨backends, c⟩ backends.length).1).countP (fun r => r == some b) := rfl
  have h2 := hperm.countP_eq (fun r => r == some b)
  have h3 : (backends.map some).countP (fun r => r == some b) =
      backends.countP (fun x => some x == some b) := List.countP_map _ _ _
  have h4 : backends.countP (fun x => some x == some b) = backends.count b := rfl
  rw [h1, h2, h3, h4]
  exact List.count_eq_one_of_mem hnd hb

/-- Closed witness for the amended C9 theorem: three distinct backends,
cursor 0 — the three results are a permutation of the backends and each is
returned once. -/
theorem C9_window_no_wrap_witness :
    ((rrRun ⟨[newBackend "b0" "u" "h" 1 100 0, newBackend "b1" "u" "h" 1 100 0,
        newBackend "b2" "u" "h" 1 100 0], 0⟩
      ([newBackend "b0" "u" "h" 1 100 0, newBackend "b1" "u" "h" 1 100 0,
        newBackend "b2" "u" "h" 1 100 0] : List BackendState).length).1).count
      (some (newBackend "b1" "u" "h" 1 100 0)) = 1 :=
  (C9_window_no_wrap
    [newBackend "b0" "u" "h" 1 100 0, newBackend "b1" "u" "h" 1 100 0,
     newBackend "b2" "u" "h" 1 100 0] 0 (by decide) (by decide)).2
    (by decide) (newBackend "b1" "u" "h" 1 100 0) (by decide)

/-- Helper: the guarded `max-age` branch cannot panic when every mention
of `max-age` comes with `=`. -/
theorem maxAgeStep_isSome (cc0 : String) (now : Int) (st : FreshState)
    (hM : goContains cc0 "max-age" = true → 2 ≤ (goSplit cc0 "max-age=").length) :
    (maxAgeStep cc0 now st).isSome := by
  unfold maxAgeStep
  by_cases hm : goContains cc0 "max-age" = true
  · rw [if_pos hm]
    cases hsp : (goSplit cc0 "max-age=")[1]? with
    | none =>
      have := hM hm
      rw [List.getElem?_eq_none_iff] at hsp
      omega
    | some part => simp
  · rw [if_neg hm]
    simp

/-- Helper: the guarded `s-maxage` branch cannot panic when every mention
of `s-maxage` comes with `=`. -/
theorem sMaxAgeStep_isSome (cc0 : String) (now : Int) (st : FreshState)
    (hS : goContains cc0 "s-maxage" = true → 2 ≤ (goSplit cc0 "s-maxage=").length) :
    (sMaxAgeStep cc0 now st).isSome := by
  unfold sMaxAgeStep
  by_cases hm : goContains cc0 "s-maxage" = true
  · rw [if_pos hm]
    cases hsp : (goSplit cc0 "s-maxage=")[1]? with
    | none =>
      have := hS hm
      rw [List.getElem?_eq_none_iff] at hsp
      omega
    | some part => simp
  · rw [if_neg hm]
    simp

/-- Helper: a three-way `if` chain whose leaves are all `some` is `some`. -/
theorem ifChain_isSome (c1 c2 c3 : Prop) [Decidable c1] [Decidable c2]
    [Decidable c3] (a b c d : Bool × String) :
    (if c1 then some a else if c2 then some b
     else if c3 then some c else some d).isSome := by
  split
  · simp
  · split
    · simp
    · split <;> simp

/-- Helper: totality of steps 6(b)–[8] under the split guards. -/
theorem freshnessTail_isSome (method : String) (statusCode : Nat)
    (cc0 : String) (now : Int) (st1 : FreshState)
    (hM : goContains cc0 "max-age" = true → 2 ≤ (goSplit cc0 "max-age=").length)
    (hS : goContains cc0 "s-maxage" = true → 2 ≤ (goSplit cc0 "s-maxage=").length) :
    (freshnessTail method statusCode cc0 now st1).isSome := by
  unfold freshnessTail
  cases hma : maxAgeStep cc0 now st1 with
  | none =>
    have := maxAgeStep_isSome cc0 now st1 hM
    rw [hma] at this
    simp at this
  | some st2 =>
    dsimp only
    cases hsa : sMaxAgeStep cc0 now st2 with
    | none =>
      have := sMaxAgeStep_isSome cc0 now st2 hS
      rw [hsa] at this
      simp at this
    | some st3 =>
      dsimp only
      apply ifChain_isSome

/-- C10 counterexample.  `tryCachingResponse` is *not* total: for a plain
`GET`/200 response whose header map lacks an `Authorization` key, control
reaches the unguarded `headers["Authorization"][0]` and the index is out
of bounds (a panic, modelled `none`); the same happens for any map
missing `Expires` or `Cache-Control` once the earlier checks pass. -/
theorem C10_counterexample :
    tryCachingResponse "GET" 200 [] 0 = none ∧
    tryCachingResponse "GET" 200 [("Content-Type", ["text/html"])] 0 = none := by
  refine ⟨rfl, rfl⟩

/-- C10, amended.  `tryCachingResponse` returns a `(cached, reason)`
result without faulting on every input in which the `Authorization`,
`Cache-Control` and `Expires` keys map to non-empty value lists and every
`Cache-Control` value that mentions `max-age` (resp. `s-maxage`) contains
`max-age=` (resp. `s-maxage=`); outside this domain the unguarded indexes
of element 0 (and of the split element 1) can be out of bounds. -/
theorem C10_total_when_guarded (method : String) (statusCode : Nat)
    (headers : Headers) (now : Int)
    (hA : headerIndex headers "Authorization" ≠ [])
    (hC : headerIndex headers "Cache-Control" ≠ [])
    (hE : headerIndex headers "Expires" ≠ [])
    (hM : ∀ cc0 ∈ headerIndex headers "Cache-Control",
      goContains cc0 "max-age" = true → 2 ≤ (goSplit cc0 "max-age=").length)
    (hS : ∀ cc0 ∈ headerIndex headers "Cache-Control",
      goContains cc0 "s-maxage" = true → 2 ≤ (goSplit cc0 "s-maxage=").length) :
    (tryCachingResponse method statusCode headers now).isSome := by
  have hA0 : 0 < (headerIndex headers "Authorization").length := List.length_pos.mpr hA
  have hC0 : 0 < (headerIndex headers "Cache-Control").length := List.length_pos.mpr hC
  have hE0 : 0 < (headerIndex headers "Expires").length := List.length_pos.mpr hE
  have hAs := List.getElem?_eq_getElem hA0
  have hCs := List.getElem?_eq_getElem hC0
  have hEs := List.getElem?_eq_getElem hE0
  have hMg := hM _ (List.getElem_mem hC0)
  have hSg := hS _ (List.getElem_mem hC0)
  unfold tryCachingResponse
  split
  · simp
  · split
    · simp
    · split
      · simp
      · rw [hAs]
        dsimp only
        by_cases hbear : goContains (headerIndex headers "Authorization")[0] "Bearer" = true
        · rw [if_pos hbear, hCs]
          dsimp only
          by_cases hc2 : (!(goContains (headerIndex headers "Cache-Control")[0] "public"
              || goContains (headerIndex headers "Cache-Control")[0] "s-maxage"
              || goContains (headerIndex headers "Cache-Control")[0] "ust-revalidate")) = true
          · rw [if_pos hc2]
            dsimp only
            simp
          · rw [if_neg hc2]
            dsimp only
            rw [hEs]
            dsimp only
            unfold freshnessStep
            exact freshnessTail_isSome _ _ _ _ _ hMg hSg
        · rw [if_neg hbear]
          dsimp only
          rw [hEs]
          dsimp only
          rw [hCs]
          dsimp only
          unfold freshnessStep
          exact freshnessTail_isSome _ _ _ _ _ hMg hSg

/-- Closed witness for the amended C10 theorem at a concrete guarded
header map. -/
theorem C10_total_when_guarded_witness :
    (tryCachingResponse "GET" 200
      [("Authorization", ["token"]), ("Cache-Control", ["max-age=60"]),
       ("Expires", ["later"])] 0).isSome :=
  C10_total_when_guarded "GET" 200
    [("Authorization", ["token"]), ("Cache-Control", ["max-age=60"]),
     ("Expires", ["later"])] 0
    (by decide) (by decide) (by decide)
    (by
      intro cc0 hm
      have hcc : cc0 = "max-age=60" := by
        simpa [headerIndex] using hm
      subst hcc
      intro _
      simp [goSplit, goSplitAux])
    (by
      intro cc0 hm
      have hcc : cc0 = "max-age=60" := by
        simpa [headerIndex] using hm
      subst hcc
      intro h
      exact absurd h (by decide))

/-- Closed witness for the amended C2 theorem: the literal three-request
scenario at 0 ms, 50 ms and 100 ms, and a general denial instance. -/
theorem C2_denied_requests_get_truncated_retry_after_witness :
    ((limitingStep ⟨2, 0, 0⟩ (0 + 0)).1 = none ∧
     (limitingStep (limitingStep ⟨2, 0, 0⟩ (0 + 0)).2 (0 + 50000000)).1 = none ∧
     (limitingStep (limitingStep (limitingStep ⟨2, 0, 0⟩ (0 + 0)).2
        (0 + 50000000)).2 (0 + 100000000)).1 = some (429, "0")) ∧
    (limitingStep ⟨2, 5, 7⟩ (7 + 100)).1 =
      some (429, toString (goDurationSecondsInt ((7 + second) - (7 + 100)))) :=
  ⟨C2_denied_requests_get_truncated_retry_after.2 0 0 50000000 100000000
      (by decide) (by decide) (by decide) (by decide) (by decide),
   C2_denied_requests_get_truncated_retry_after.1 ⟨2, 5, 7⟩ (7 + 100) (by decide)⟩
